import Mathlib

/-!
Verification of the supertodoo query/filter/statistics core.

The definitions below are a shallow embedding of the todos router
(packages/api/src/routers/todos.ts, with the complete variant of the router
kept next to the schema in packages/db/src/schema/todos.ts) and of the
drizzle table schema.  The relational store is modelled as lists of rows;
SQL WHERE clauses become boolean predicates, SQL LIKE is modelled by an
explicit pattern matcher, and the JavaScript floating-point computation of
the completion rate is modelled exactly with scaled integer arithmetic.
-/

namespace SuperTodoo

/-- Priority levels, in the declaration order of the pgEnum
("low", "medium", "high", "urgent"). -/
inductive Priority where
  | low
  | medium
  | high
  | urgent
deriving DecidableEq, Repr

/-- Rank of a priority value: Postgres orders enum columns by declaration
order, so sorting by the priority column compares these ranks. -/
def Priority.rank : Priority → Nat
  | .low => 0
  | .medium => 1
  | .high => 2
  | .urgent => 3

/-- Sort keys accepted by getTodos (zod enum, default createdAt). -/
inductive SortBy where
  | createdAt
  | dueDate
  | priority
  | title
deriving DecidableEq, Repr

/-- Sort directions accepted by getTodos (zod enum, default desc). -/
inductive SortOrder where
  | asc
  | desc
deriving DecidableEq, Repr

/-- A row of the todos table.  Timestamps are modelled as integers. -/
structure Todo where
  id : String
  title : String
  description : Option String
  completed : Bool
  priority : Priority
  dueDate : Option Int
  userId : String
  createdAt : Int
  updatedAt : Int
deriving DecidableEq, Repr

/-- A row of the tags table. -/
structure Tag where
  id : String
  name : String
  color : String
  userId : String
  createdAt : Int
deriving DecidableEq, Repr

/-- A row of the todo_tags junction table. -/
structure TodoTag where
  todoId : String
  tagId : String
  createdAt : Int
deriving DecidableEq, Repr

/-- The relational store: the three tables the router touches. -/
structure DB where
  todos : List Todo
  tags : List Tag
  todoTags : List TodoTag
deriving DecidableEq, Repr

/-- A todo enriched with its joined tags, as returned by the read paths
(the spread ...todo plus the tags field). -/
structure EnrichedTodo where
  todo : Todo
  tags : List Tag
deriving DecidableEq, Repr

/-- Typed failures thrown by the router (ORPCError codes with message). -/
inductive Err where
  | notFound (msg : String)
  | internal (msg : String)
deriving DecidableEq, Repr

/-- Result shape of a successful deleteTodo: { success: true, id }. -/
structure DeleteResult where
  success : Bool
  id : String
deriving DecidableEq, Repr

/-- SQL LIKE matching on character lists, fuel-indexed so that it is
structurally recursive.  A percent sign matches any sequence, an underscore
matches any single character. -/
def likeFuel : Nat → List Char → List Char → Bool
  | 0, _, _ => false
  | _ + 1, [], [] => true
  | _ + 1, [], _ :: _ => false
  | f + 1, c :: ps, [] => c == '%' && likeFuel f ps []
  | f + 1, c :: ps, x :: xs =>
    if c == '%' then likeFuel f ps (x :: xs) || likeFuel f (c :: ps) xs
    else if c == '_' then likeFuel f ps xs
    else c == x && likeFuel f ps xs

/-- SQL LIKE: does the string match the pattern?  The fuel bound
exceeds the sum of the lengths, which each step of likeFuel decreases. -/
def sqlLike (s pat : String) : Bool :=
  likeFuel (s.length + pat.length + 1) pat.data s.data

/-- Does the first list occur as a leading segment of the second? -/
def leadsList : List Char → List Char → Bool
  | [], _ => true
  | _ :: _, [] => false
  | a :: as, b :: bs => a == b && leadsList as bs

/-- Does the needle occur as a contiguous segment anywhere in the haystack? -/
def segList (needle : List Char) : List Char → Bool
  | [] => leadsList needle []
  | s@(_ :: rest) => leadsList needle s || segList needle rest

/-- Substring containment on strings (used to formalise the specification
wording that a title or description "contains" the search text). -/
def strContains (s sub : String) : Bool :=
  segList sub.data s.data

/-- Insert an element into a list sorted by the given boolean comparison. -/
def insertLe {α : Type} (le : α → α → Bool) (x : α) : List α → List α
  | [] => [x]
  | y :: ys => if le x y then x :: y :: ys else y :: insertLe le x ys

/-- Insertion sort by a boolean comparison; models the ORDER BY clause. -/
def sortByLe {α : Type} (le : α → α → Bool) : List α → List α
  | [] => []
  | x :: xs => insertLe le x (sortByLe le xs)

/-- Ascending comparison of nullable due dates; Postgres places NULL last
in ascending order. -/
def dueAscLe : Option Int → Option Int → Bool
  | none, none => true
  | none, some _ => false
  | some _, none => true
  | some a, some b => decide (a ≤ b)

/-- Ascending comparison of the selected sort column (todos[input.sortBy]). -/
def colAscLe : SortBy → Todo → Todo → Bool
  | .createdAt, a, b => decide (a.createdAt ≤ b.createdAt)
  | .dueDate, a, b => dueAscLe a.dueDate b.dueDate
  | .priority, a, b => decide (a.priority.rank ≤ b.priority.rank)
  | .title, a, b => decide (a.title ≤ b.title)

/-- The comparison actually used: asc(sortColumn) or desc(sortColumn). -/
def todoLe (k : SortBy) (o : SortOrder) (a b : Todo) : Bool :=
  match o with
  | .asc => colAscLe k a b
  | .desc => colAscLe k b a

/-- Input of getTodos after zod validation (getTodosSchema). -/
structure GetTodosInput where
  completed : Option Bool
  priority : Option Priority
  search : Option String
  tagId : Option String
  sortBy : SortBy
  sortOrder : SortOrder
deriving DecidableEq, Repr

/-- The conditions array built by getTodos, in push order.  The first entry
is the owner condition; completed is tested against undefined, while
search and tagId are tested for truthiness (an empty string is falsy);
priority is a zod enum, hence truthy whenever present.  The tagId branch
is the inArray subquery selecting todoId from todo_tags where tagId
matches. -/
def codeConditions (caller : String) (inp : GetTodosInput) (db : DB) :
    List (Todo → Bool) :=
  let base : List (Todo → Bool) := [fun t => t.userId == caller]
  let compl : List (Todo → Bool) :=
    match inp.completed with
    | some b => [fun t => t.completed == b]
    | none => []
  let prio : List (Todo → Bool) :=
    match inp.priority with
    | some p => [fun t => t.priority == p]
    | none => []
  let search : List (Todo → Bool) :=
    match inp.search with
    | some s =>
      if s == "" then []
      else
        [fun t =>
          sqlLike t.title ("%" ++ s ++ "%")
          || (match t.description with
              | some d => sqlLike d ("%" ++ s ++ "%")
              | none => false)]
    | none => []
  let tag : List (Todo → Bool) :=
    match inp.tagId with
    | some tid =>
      if tid == "" then []
      else
        [fun t =>
          (((db.todoTags.filter (fun r => r.tagId == tid)).map
              (fun r => r.todoId)).contains t.id)]
    | none => []
  base ++ compl ++ prio ++ search ++ tag

/-- The WHERE clause of getTodos: and(...conditions). -/
def codeWherePred (caller : String) (inp : GetTodosInput) (db : DB)
    (t : Todo) : Bool :=
  (codeConditions caller inp db).all (fun c => c t)

/-- Join a todo with its tags (the with: todoTags: with: tag relation). -/
def enrich (db : DB) (t : Todo) : EnrichedTodo :=
  { todo := t
    tags := (db.todoTags.filter (fun r => r.todoId == t.id)).filterMap
      (fun r => db.tags.find? (fun g => g.id == r.tagId)) }

/-- getTodos: filter the caller's todos by the assembled conditions, order
by the selected column and direction, and enrich each row with its tags. -/
def getTodos (caller : String) (inp : GetTodosInput) (db : DB) :
    List EnrichedTodo :=
  (sortByLe (todoLe inp.sortBy inp.sortOrder)
      (db.todos.filter (codeWherePred caller inp db))).map (enrich db)

/-- getTodo: single todo by id, owner-scoped, NOT_FOUND otherwise. -/
def getTodo (caller id : String) (db : DB) : Except Err EnrichedTodo :=
  match db.todos.find? (fun t => t.id == id && t.userId == caller) with
  | none => .error (.notFound "Todo not found or you don't have access to it")
  | some t => .ok (enrich db t)

theorem mem_insertLe {α : Type} (le : α → α → Bool) (x : α) (l : List α)
    (a : α) : a ∈ insertLe le x l ↔ a = x ∨ a ∈ l := by
  induction l with
  | nil => simp [insertLe]
  | cons y ys ih =>
    cases h : le x y with
    | true => simp [insertLe, h]
    | false =>
      have hstep : insertLe le x (y :: ys) = y :: insertLe le x ys := by
        simp [insertLe, h]
      rw [hstep]
      simp only [List.mem_cons, ih]
      tauto

theorem mem_sortByLe {α : Type} (le : α → α → Bool) (l : List α) (a : α) :
    a ∈ sortByLe le l ↔ a ∈ l := by
  induction l with
  | nil => simp [sortByLe]
  | cons x xs ih => simp [sortByLe, mem_insertLe, ih]

/-- C1: for every filter combination, every todo returned by getTodos has
its owner equal to the caller's verified user identifier. -/
theorem getTodos_owner_scoped (caller : String) (inp : GetTodosInput)
    (db : DB) (e : EnrichedTodo) (he : e ∈ getTodos caller inp db) :
    e.todo.userId = caller := by
  rcases List.mem_map.mp he with ⟨t, ht, rfl⟩
  have ht' := (mem_sortByLe _ _ t).mp ht
  have hfil := List.mem_filter.mp ht'
  have hall := hfil.2
  unfold codeWherePred codeConditions at hall
  simp only [List.all_append, List.all_cons, List.all_nil, Bool.and_eq_true,
    beq_iff_eq] at hall
  exact hall.1.1.1.1.1

/-- C1 witness: a concrete run of getTodos, with an owned and a foreign
todo in the store, returns the owned todo and the theorem applies to it. -/
theorem getTodos_owner_scoped_witness :
    (⟨⟨"t1", "a", none, false, .medium, none, "u1", 0, 0⟩, []⟩ : EnrichedTodo)
      ∈ getTodos "u1"
        ⟨none, none, none, none, .createdAt, .desc⟩
        ⟨[⟨"t1", "a", none, false, .medium, none, "u1", 0, 0⟩,
          ⟨"t2", "b", none, false, .medium, none, "u2", 0, 0⟩], [], []⟩
    ∧ (⟨⟨"t1", "a", none, false, .medium, none, "u1", 0, 0⟩, []⟩
        : EnrichedTodo).todo.userId = "u1" := by
  refine ⟨by decide, ?_⟩
  exact getTodos_owner_scoped "u1"
    ⟨none, none, none, none, .createdAt, .desc⟩
    ⟨[⟨"t1", "a", none, false, .medium, none, "u1", 0, 0⟩,
      ⟨"t2", "b", none, false, .medium, none, "u2", 0, 0⟩], [], []⟩
    ⟨⟨"t1", "a", none, false, .medium, none, "u1", 0, 0⟩, []⟩
    (by decide)

/-- The filter predicate as the specification words it: a conjunction of
owner equality and, for each present filter, its constraint. The search
sub-conditions use substring containment ("title contains search OR
description contains search") and the tagId constraint is membership of
the task id in the set of task ids associated with that tag via TaskTag. -/
def specTodoPred (caller : String) (inp : GetTodosInput) (db : DB)
    (t : Todo) : Bool :=
  (t.userId == caller)
  && (match inp.completed with
      | none => true
      | some b => t.completed == b)
  && (match inp.priority with
      | none => true
      | some p => t.priority == p)
  && (match inp.search with
      | none => true
      | some s =>
        strContains t.title s
        || (match t.description with
            | some d => strContains d s
            | none => false))
  && (match inp.tagId with
      | none => true
      | some tid =>
        db.todoTags.any (fun r => r.tagId == tid && r.todoId == t.id))

/-- The amended filter predicate: as specTodoPred, except that the search
sub-conditions use SQL LIKE matching of the pattern percent-search-percent
(so the wildcard characters of the search text are interpreted), and a
present-but-empty tagId imposes no constraint (the router tests tagId for
truthiness, and the empty string is falsy). -/
def specTodoPredAmended (caller : String) (inp : GetTodosInput) (db : DB)
    (t : Todo) : Bool :=
  (t.userId == caller)
  && (match inp.completed with
      | none => true
      | some b => t.completed == b)
  && (match inp.priority with
      | none => true
      | some p => t.priority == p)
  && (match inp.search with
      | none => true
      | some s =>
        sqlLike t.title ("%" ++ s ++ "%")
        || (match t.description with
            | some d => sqlLike d ("%" ++ s ++ "%")
            | none => false))
  && (match inp.tagId with
      | none => true
      | some tid =>
        tid == ""
        || db.todoTags.any (fun r => r.tagId == tid && r.todoId == t.id))

theorem likeFuel_onepct (xs : List Char) :
    ∀ f, xs.length + 2 ≤ f → likeFuel f ['%'] xs = true := by
  induction xs with
  | nil =>
    intro f hf
    cases f with
    | zero => simp at hf
    | succ f' =>
      cases f' with
      | zero => simp at hf
      | succ f'' => simp [likeFuel]
  | cons x rest ih =>
    intro f hf
    cases f with
    | zero => simp at hf
    | succ f' =>
      have hr : rest.length + 2 ≤ f' := by
        simp only [List.length_cons] at hf
        omega
      simp [likeFuel, ih f' hr]

theorem likeFuel_twopct (xs : List Char) :
    ∀ f, xs.length + 3 ≤ f → likeFuel f ['%', '%'] xs = true := by
  cases xs with
  | nil =>
    intro f hf
    cases f with
    | zero => simp at hf
    | succ f' =>
      have hr : ([] : List Char).length + 2 ≤ f' := by
        simp only [List.length_nil] at hf ⊢
        omega
      simp [likeFuel, likeFuel_onepct [] f' hr]
  | cons x rest =>
    intro f hf
    cases f with
    | zero => simp at hf
    | succ f' =>
      have hr : (x :: rest).length + 2 ≤ f' := by
        simp only [List.length_cons] at hf ⊢
        omega
      simp [likeFuel, likeFuel_onepct (x :: rest) f' hr]

/-- The pattern consisting of two percent signs matches any string. -/
theorem sqlLike_matchall (s : String) : sqlLike s "%%" = true := by
  have hd : ("%%" : String).data = ['%', '%'] := rfl
  have hlen : ("%%" : String).length = 2 := rfl
  unfold sqlLike
  rw [hd, hlen]
  exact likeFuel_twopct s.data (s.length + 2 + 1) (by
    have hsd : s.length = s.data.length := rfl
    omega)

theorem contains_assoc_eq_any (l : List TodoTag) (tid x : String) :
    ((l.filter (fun r => r.tagId == tid)).map (fun r => r.todoId)).contains x
      = l.any (fun r => r.tagId == tid && r.todoId == x) := by
  induction l with
  | nil => rfl
  | cons r rs ih =>
    by_cases h : (r.tagId == tid) = true
    · simp only [List.filter_cons, h, if_true, List.map_cons, List.any_cons,
        List.contains_cons, ih]
      by_cases h2 : r.todoId = x
      · subst h2
        simp
      · have hxr : (x == r.todoId) = false := by
          simp [beq_iff_eq]
          exact fun he => h2 he.symm
        have hrx : (r.todoId == x) = false := by simp [beq_iff_eq, h2]
        simp [hxr, hrx, h]
    · have h' : (r.tagId == tid) = false := by
        cases hb : (r.tagId == tid) with
        | true => exact absurd hb h
        | false => rfl
      rw [List.filter_cons]
      simp only [h', Bool.false_eq_true, if_false, List.any_cons,
        Bool.false_and, Bool.false_or]
      exact ih

theorem all_completedCond_eq (c : Option Bool) (t : Todo) :
    ((match c with
      | some b => ([fun u : Todo => u.completed == b] : List (Todo → Bool))
      | none => ([] : List (Todo → Bool))).all (fun f => f t))
      = (match c with
        | none => true
        | some b => t.completed == b) := by
  cases c <;> simp

theorem all_priorityCond_eq (p : Option Priority) (t : Todo) :
    ((match p with
      | some q => ([fun u : Todo => u.priority == q] : List (Todo → Bool))
      | none => ([] : List (Todo → Bool))).all (fun f => f t))
      = (match p with
        | none => true
        | some q => t.priority == q) := by
  cases p <;> simp

theorem all_searchCond_eq (s : Option String) (t : Todo) :
    ((match s with
      | some s' =>
        if s' == "" then ([] : List (Todo → Bool))
        else
          ([fun u : Todo =>
            sqlLike u.title ("%" ++ s' ++ "%")
            || (match u.description with
                | some d => sqlLike d ("%" ++ s' ++ "%")
                | none => false)] : List (Todo → Bool))
      | none => ([] : List (Todo → Bool))).all (fun f => f t))
      = (match s with
        | none => true
        | some s' =>
          sqlLike t.title ("%" ++ s' ++ "%")
          || (match t.description with
              | some d => sqlLike d ("%" ++ s' ++ "%")
              | none => false)) := by
  cases s with
  | none => rfl
  | some s' =>
    by_cases h : (s' == "") = true
    · have hs : s' = "" := by simpa [beq_iff_eq] using h
      subst hs
      simp [sqlLike_matchall]
    · have h' : (s' == "") = false := by
        cases hb : (s' == "") with
        | true => exact absurd hb h
        | false => rfl
      simp [h']

theorem all_tagCond_eq (tg : Option String) (db : DB) (t : Todo) :
    ((match tg with
      | some tid =>
        if tid == "" then ([] : List (Todo → Bool))
        else
          ([fun u : Todo =>
            (((db.todoTags.filter (fun r : TodoTag => r.tagId == tid)).map
                (fun r : TodoTag => r.todoId)).contains u.id)]
            : List (Todo → Bool))
      | none => ([] : List (Todo → Bool))).all (fun f => f t))
      = (match tg with
        | none => true
        | some tid =>
          tid == ""
          || db.todoTags.any (fun r => r.tagId == tid && r.todoId == t.id)) := by
  cases tg with
  | none => rfl
  | some tid =>
    by_cases h : (tid == "") = true
    · simp [h]
    · have h' : (tid == "") = false := by
        cases hb : (tid == "") with
        | true => exact absurd hb h
        | false => rfl
      simp only [h', Bool.false_eq_true, if_false, List.all_cons, List.all_nil,
        Bool.and_true, Bool.false_or]
      exact contains_assoc_eq_any db.todoTags tid t.id

/-- C2 counterexample: at two concrete inputs the predicate the router
applies differs from the conjunction the specification describes.  First,
with a present-but-empty tagId the router imposes no tag constraint while
the described conjunction demands membership in the (empty) association
set of the empty tag id.  Second, the search text a_c LIKE-matches the
title abc through the underscore wildcard although abc does not contain
a_c. -/
theorem getTodos_predicate_counterexample :
    (codeWherePred "u" ⟨none, none, none, some "", .createdAt, .desc⟩
        ⟨[⟨"t1", "a", none, false, .medium, none, "u", 0, 0⟩], [], []⟩
        ⟨"t1", "a", none, false, .medium, none, "u", 0, 0⟩
      ≠ specTodoPred "u" ⟨none, none, none, some "", .createdAt, .desc⟩
        ⟨[⟨"t1", "a", none, false, .medium, none, "u", 0, 0⟩], [], []⟩
        ⟨"t1", "a", none, false, .medium, none, "u", 0, 0⟩)
    ∧ (codeWherePred "u" ⟨none, none, some "a_c", none, .createdAt, .desc⟩
        ⟨[⟨"t2", "abc", none, false, .medium, none, "u", 0, 0⟩], [], []⟩
        ⟨"t2", "abc", none, false, .medium, none, "u", 0, 0⟩
      ≠ specTodoPred "u" ⟨none, none, some "a_c", none, .createdAt, .desc⟩
        ⟨[⟨"t2", "abc", none, false, .medium, none, "u", 0, 0⟩], [], []⟩
        ⟨"t2", "abc", none, false, .medium, none, "u", 0, 0⟩) := by
  decide

/-- C2 amended: the predicate applied by getTodos is exactly the
conjunction of owner equality and the present filters, where the search
sub-conditions are SQL LIKE matches of the pattern percent-search-percent
and a present-but-empty search or tagId imposes no constraint. -/
theorem getTodos_predicate_amended (caller : String) (inp : GetTodosInput)
    (db : DB) (t : Todo) :
    codeWherePred caller inp db t = specTodoPredAmended caller inp db t := by
  rcases inp with ⟨c, p, s, tg, sb, so⟩
  unfold codeWherePred codeConditions specTodoPredAmended
  simp only [List.all_append, List.all_cons, List.all_nil]
  rw [all_completedCond_eq, all_priorityCond_eq, all_searchCond_eq,
    all_tagCond_eq]
  simp [Bool.and_assoc]

/-- Input of updateTodo after zod validation (updateTodoSchema).  An outer
none models an absent optional field; for the nullable fields an inner
none models an explicit null. -/
structure UpdateInput where
  id : String
  title : Option String
  description : Option (Option String)
  completed : Option Bool
  priority : Option Priority
  dueDate : Option (Option Int)
  tagIds : Option (List String)
deriving DecidableEq, Repr

/-- Does the update data object have any key (Object.keys length > 0)?
The id and tagIds fields are destructured away before this check. -/
def updateDataNonempty (inp : UpdateInput) : Bool :=
  inp.title.isSome || inp.description.isSome || inp.completed.isSome
  || inp.priority.isSome || inp.dueDate.isSome

/-- The .set payload of the update statement: each supplied field
overwrites, absent fields stay untouched, updatedAt is refreshed. -/
def applyTodoUpdate (inp : UpdateInput) (now : Int) (t : Todo) : Todo :=
  { t with
    title := inp.title.getD t.title
    description :=
      match inp.description with
      | none => t.description
      | some d => d
    completed := inp.completed.getD t.completed
    priority := inp.priority.getD t.priority
    dueDate :=
      match inp.dueDate with
      | none => t.dueDate
      | some d => d
    updatedAt := now }

/-- updateTodo: inside one transaction, verify ownership with a select;
when any scalar field is supplied, update the row matched by id and
refresh updatedAt; when tagIds is supplied (including the empty list),
delete every association row of the task and insert one row per supplied
id; finally return the row enriched with its tags.  On failure the
transaction rolls back, leaving the store unchanged. -/
def updateTodo (caller : String) (inp : UpdateInput) (now : Int) (db : DB) :
    DB × Except Err EnrichedTodo :=
  match db.todos.find? (fun t => t.id == inp.id && t.userId == caller) with
  | none =>
    (db, .error (.notFound "Todo not found or you don't have access to it"))
  | some _ =>
    let db1 : DB :=
      if updateDataNonempty inp then
        { db with todos := db.todos.map (fun t =>
            if t.id == inp.id then applyTodoUpdate inp now t else t) }
      else db
    let db2 : DB :=
      match inp.tagIds with
      | none => db1
      | some l =>
        { db1 with todoTags :=
            db1.todoTags.filter (fun r => !(r.todoId == inp.id))
            ++ l.map (fun tid => ⟨inp.id, tid, now⟩) }
    match db2.todos.find? (fun t => t.id == inp.id) with
    | none => (db, .error (.internal "Could not retrieve updated todo"))
    | some u => (db2, .ok (enrich db2 u))

/-- toggleTodo: read the completed flag of the owner's row with a select
scoped by id and owner, fail NOT_FOUND when absent, then update the row
matched by id only, setting completed to the negation of the value read
and refreshing updatedAt.  The updated row is returned as the first row
of the returning clause (absent when no row matched). -/
def toggleTodo (caller id : String) (now : Int) (db : DB) :
    DB × Except Err (Option Todo) :=
  match db.todos.find? (fun t => t.id == id && t.userId == caller) with
  | none =>
    (db, .error (.notFound "Todo not found or you don't have access to it"))
  | some existing =>
    let newTodos := db.todos.map (fun t =>
      if t.id == id then
        { t with completed := !existing.completed, updatedAt := now }
      else t)
    ({ db with todos := newTodos },
      .ok (newTodos.find? (fun t => t.id == id)))

/-- deleteTodo: one conditional DELETE whose WHERE clause tests both the
id and the caller's ownership, returning the deleted id; NOT_FOUND when
no row matched.  The store cascades deletion of the todo_tags rows of a
deleted todo. -/
def deleteTodo (caller id : String) (db : DB) :
    DB × Except Err DeleteResult :=
  let matched := db.todos.filter (fun t => t.id == id && t.userId == caller)
  let db' : DB :=
    { db with
      todos := db.todos.filter (fun t => !(t.id == id && t.userId == caller))
      todoTags := db.todoTags.filter
        (fun r => !(matched.any (fun t => t.id == r.todoId))) }
  match matched with
  | [] =>
    (db', .error (.notFound "Todo not found or you don't have access to it"))
  | d :: _ => (db', .ok { success := true, id := d.id })

/-- One statement issued against the todos table, abstracted to the row
predicate of its WHERE clause (and, for an update, its set payload). -/
inductive DBStmt where
  | read (wh : Todo → Bool)
  | update (wh : Todo → Bool) (set : Int → Todo → Todo)
  | delete (wh : Todo → Bool)

/-- Is the statement a write (an update or a delete)? -/
def DBStmt.isWrite : DBStmt → Bool
  | .read _ => false
  | .update _ _ => true
  | .delete _ => true

/-- The WHERE clause predicate of a statement. -/
def DBStmt.wherePred : DBStmt → (Todo → Bool)
  | .read w => w
  | .update w _ => w
  | .delete w => w

/-- The statements toggleTodo issues against the todos table, in order:
a select scoped by id and owner, then an update whose WHERE clause tests
the id only.  The value written depends on the flag the select returned. -/
def toggleTodoStmts (caller id : String) (prevCompleted : Bool) :
    List DBStmt :=
  [.read (fun t => t.id == id && t.userId == caller),
   .update (fun t => t.id == id)
     (fun now t => { t with completed := !prevCompleted, updatedAt := now })]

/-- The single statement deleteTodo issues: a delete scoped by id and
owner. -/
def deleteTodoStmts (caller id : String) : List DBStmt :=
  [.delete (fun t => t.id == id && t.userId == caller)]

/-- An operation is a single combined conditional write whose WHERE
clause includes the caller's owner identifier iff its statement list is
one write whose predicate only accepts rows owned by the caller. -/
def singleOwnerConditionedWrite (caller : String) (stmts : List DBStmt) :
    Prop :=
  ∃ s, stmts = [s] ∧ s.isWrite = true
    ∧ ∀ t : Todo, s.wherePred t = true → t.userId = caller

/-- C3 counterexample: toggleTodo is not a single combined conditional
write — it issues two statements, a read followed by an update. -/
theorem toggleTodo_not_single_write :
    ¬ singleOwnerConditionedWrite "u1" (toggleTodoStmts "u1" "t1" false) := by
  rintro ⟨s, hs, -, -⟩
  simp [toggleTodoStmts] at hs

/-- C3 amended: deleteTodo performs its ownership check and its write as
a single combined conditional write whose WHERE clause includes the
caller's owner identifier; toggleTodo instead issues an owner-scoped read
followed by an update whose WHERE clause tests the task id only and is
not owner-conditioned. -/
theorem toggle_delete_write_shape (caller id : String) (prev : Bool) :
    singleOwnerConditionedWrite caller (deleteTodoStmts caller id)
    ∧ (toggleTodoStmts caller id prev).length = 2
    ∧ (∀ s ∈ toggleTodoStmts caller id prev, s.isWrite = true →
        ∀ t : Todo, s.wherePred t = (t.id == id))
    ∧ (∀ s ∈ toggleTodoStmts caller id prev, s.isWrite = false →
        ∀ t : Todo, s.wherePred t = true → t.userId = caller) := by
  refine ⟨⟨.delete (fun t => t.id == id && t.userId == caller),
    rfl, rfl, ?_⟩, rfl, ?_, ?_⟩
  · intro t ht
    simp only [DBStmt.wherePred, Bool.and_eq_true, beq_iff_eq] at ht
    exact ht.2
  · intro s hs hw t
    simp only [toggleTodoStmts, List.mem_cons, List.mem_singleton] at hs
    rcases hs with hs | hs | hs
    · subst hs
      simp [DBStmt.isWrite] at hw
    · subst hs
      rfl
    · cases hs
  · intro s hs hr t ht
    simp only [toggleTodoStmts, List.mem_cons, List.mem_singleton] at hs
    rcases hs with hs | hs | hs
    · subst hs
      simp only [DBStmt.wherePred, Bool.and_eq_true, beq_iff_eq] at ht
      exact ht.2
    · subst hs
      simp [DBStmt.isWrite] at hr
    · cases hs

/-- C3 amended witness: the amended shape theorem applied at a concrete
caller and id. -/
theorem toggle_delete_write_shape_witness :
    singleOwnerConditionedWrite "u1" (deleteTodoStmts "u1" "t1")
    ∧ (toggleTodoStmts "u1" "t1" false).length = 2 :=
  ⟨(toggle_delete_write_shape "u1" "t1" false).1,
   (toggle_delete_write_shape "u1" "t1" false).2.1⟩

/-- C10: an updateTodo call that supplies only tagIds and no scalar field
skips the update statement on the todos table entirely, so the task rows
— including their updatedAt values — are unchanged; only the association
rows are replaced. -/
theorem updateTodo_tagsOnly_frame (caller id : String) (l : List String)
    (now : Int) (db : DB) :
    ((updateTodo caller
        { id := id, title := none, description := none, completed := none,
          priority := none, dueDate := none, tagIds := some l }
        now db).1).todos = db.todos := by
  unfold updateTodo
  split
  · rfl
  · simp only [updateDataNonempty, Option.isSome_none, Bool.or_self,
      Bool.false_eq_true, if_false]
    split <;> rfl

/-- C7: whenever deleteTodo succeeds, its result is success: true paired
with the deleted task's identifier, which equals the requested id. -/
theorem deleteTodo_success_result (caller id : String) (db db' : DB)
    (r : DeleteResult) (h : deleteTodo caller id db = (db', .ok r)) :
    r = { success := true, id := id } := by
  unfold deleteTodo at h
  cases hm : db.todos.filter (fun t => t.id == id && t.userId == caller) with
  | nil =>
    rw [hm] at h
    simp at h
  | cons d rest =>
    rw [hm] at h
    have hd : d ∈ db.todos.filter (fun t => t.id == id && t.userId == caller) := by
      rw [hm]
      exact List.mem_cons_self d rest
    have hdp := (List.mem_filter.mp hd).2
    simp only [Bool.and_eq_true, beq_iff_eq] at hdp
    have h2 := congrArg Prod.snd h
    simp only at h2
    have hr : ({ success := true, id := d.id } : DeleteResult) = r := by
      injection h2
    rw [← hr, hdp.1]

/-- C7 witness: a concrete successful delete, to which the theorem
applies. -/
theorem deleteTodo_success_result_witness :
    ({ success := true, id := "t1" } : DeleteResult)
      = { success := true, id := "t1" } :=
  deleteTodo_success_result "u1" "t1"
    ⟨[⟨"t1", "a", none, false, .medium, none, "u1", 0, 0⟩], [], []⟩
    ⟨[], [], []⟩ { success := true, id := "t1" } rfl

/-- C8: when no task resolves to the requested id under the caller's
ownership — whether the id does not exist or the row belongs to another
user — deleteTodo fails NOT_FOUND with the same error either way and
leaves the whole store unchanged. -/
theorem deleteTodo_foreign_notFound (caller id : String) (db : DB)
    (h : ∀ t ∈ db.todos, t.id = id → t.userId ≠ caller) :
    deleteTodo caller id db
      = (db, .error (.notFound
          "Todo not found or you don't have access to it")) := by
  have hpred : ∀ t ∈ db.todos,
      (t.id == id && t.userId == caller) = false := by
    intro t ht
    by_cases h1 : t.id = id
    · have h2 := h t ht h1
      simp [h1, h2]
    · simp [h1]
  have hfil : db.todos.filter (fun t => t.id == id && t.userId == caller)
      = [] := by
    rw [List.filter_eq_nil_iff]
    intro a ha
    simp [hpred a ha]
  have hneg : db.todos.filter (fun t => !(t.id == id && t.userId == caller))
      = db.todos := by
    rw [List.filter_eq_self]
    intro a ha
    simp [hpred a ha]
  unfold deleteTodo
  rw [hfil, hneg]
  simp only [List.any_nil, Bool.not_false, List.filter_true]

/-- C8 witness: deleting an id that exists but belongs to another user
fails NOT_FOUND and leaves the store unchanged. -/
theorem deleteTodo_foreign_notFound_witness :
    deleteTodo "u1" "t1"
        ⟨[⟨"t1", "a", none, false, .medium, none, "u2", 0, 0⟩], [], []⟩
      = (⟨[⟨"t1", "a", none, false, .medium, none, "u2", 0, 0⟩], [], []⟩,
         .error (.notFound
           "Todo not found or you don't have access to it")) :=
  deleteTodo_foreign_notFound "u1" "t1"
    ⟨[⟨"t1", "a", none, false, .medium, none, "u2", 0, 0⟩], [], []⟩
    (by decide)

theorem filter_not_pred_filter {α : Type} (p : α → Bool) (l : List α) :
    (l.filter (fun a => !(p a))).filter p = [] := by
  induction l with
  | nil => rfl
  | cons a rest ih =>
    cases hp : p a with
    | true => simp [List.filter_cons, hp, ih]
    | false => simp [List.filter_cons, hp, ih]

theorem find_eq_of_mem_unique {α : Type} (l : List α) (p : α → Bool)
    (t : α) (ht : t ∈ l) (hp : p t = true)
    (huniq : ∀ x ∈ l, p x = true → x = t) : l.find? p = some t := by
  induction l with
  | nil => cases ht
  | cons a rest ih =>
    cases hpa : p a with
    | true =>
      have ha : a = t := huniq a (List.mem_cons_self a rest) hpa
      rw [List.find?_cons_of_pos _ hpa, ha]
    | false =>
      have ht' : t ∈ rest := by
        rcases List.mem_cons.mp ht with h | h
        · exfalso
          rw [h] at hp
          rw [hp] at hpa
          cases hpa
        · exact h
      rw [List.find?_cons_of_neg _ (by simp [hpa])]
      exact ih ht' (fun x hx hpx => huniq x (List.mem_cons_of_mem a hx) hpx)

theorem eq_of_mem_pairwise_id (l : List Todo)
    (hp : l.Pairwise (fun a b => a.id ≠ b.id)) (t x : Todo)
    (ht : t ∈ l) (hx : x ∈ l) (hid : x.id = t.id) : x = t := by
  by_contra hne
  exact (List.Pairwise.forall (fun a b h => h.symm) hp hx ht hne) hid

/-- C6: when updateTodo is called on an owned task with an explicit
tagIds list — whatever scalar fields the call additionally supplies —
the task's association set afterwards is exactly the supplied ids; with
the empty list the task is left with zero associations and a subsequent
getTodo shows an empty tags sequence. -/
theorem updateTodo_tagIds_replace (caller : String) (inp : UpdateInput)
    (l : List String) (hl : inp.tagIds = some l) (now : Int) (db : DB)
    (t : Todo) (ht : t ∈ db.todos) (hid : t.id = inp.id)
    (hu : t.userId = caller) :
    ((((updateTodo caller inp now db).1).todoTags.filter
        (fun tt => tt.todoId == inp.id)).map (fun tt => tt.tagId)) = l
    ∧ (l = [] → ∀ e, getTodo caller inp.id
        (updateTodo caller inp now db).1 = .ok e → e.tags = []) := by
  have hpost : ∃ ts, (updateTodo caller inp now db).1
      = ⟨ts, db.tags,
         db.todoTags.filter (fun r => !(r.todoId == inp.id))
         ++ l.map (fun tid => ⟨inp.id, tid, now⟩)⟩ := by
    unfold updateTodo
    split
    · rename_i hnone
      exfalso
      have h0 := List.find?_eq_none.mp hnone t ht
      simp [hid, hu] at h0
    · split
      · -- a scalar field is supplied: the todos table is the updated one
        refine ⟨db.todos.map (fun x =>
          if x.id == inp.id then applyTodoUpdate inp now x else x), ?_⟩
        split
        · rename_i hte
          rw [hl] at hte
          cases hte
        · rename_i l2 hte
          rw [hl] at hte
          injection hte with h2
          subst h2
          dsimp only
          split
          · rename_i hnone2
            exfalso
            have hmem : (if t.id == inp.id then applyTodoUpdate inp now t
                else t) ∈ db.todos.map (fun x =>
                  if x.id == inp.id then applyTodoUpdate inp now x
                  else x) :=
              List.mem_map_of_mem _ ht
            have h0 := List.find?_eq_none.mp hnone2 _ hmem
            simp [hid, applyTodoUpdate] at h0
          · rfl
      · -- no scalar field: the todos table is unchanged
        refine ⟨db.todos, ?_⟩
        split
        · rename_i hte
          rw [hl] at hte
          cases hte
        · rename_i l2 hte
          rw [hl] at hte
          injection hte with h2
          subst h2
          dsimp only
          split
          · rename_i hnone2
            exfalso
            have h0 := List.find?_eq_none.mp hnone2 t ht
            simp [hid] at h0
          · rfl
  obtain ⟨ts, hpost⟩ := hpost
  have hmapfil : (l.map (fun tid => (⟨inp.id, tid, now⟩ : TodoTag))).filter
      (fun tt => tt.todoId == inp.id)
      = l.map (fun tid => ⟨inp.id, tid, now⟩) := by
    rw [List.filter_eq_self]
    intro a ha
    obtain ⟨tid, -, rfl⟩ := List.mem_map.mp ha
    simp
  refine ⟨?_, ?_⟩
  · rw [hpost]
    rw [List.filter_append, filter_not_pred_filter, List.nil_append,
      hmapfil, List.map_map]
    have hcomp : ((fun tt : TodoTag => tt.tagId)
        ∘ fun tid => (⟨inp.id, tid, now⟩ : TodoTag))
        = (fun s : String => s) :=
      rfl
    rw [hcomp, List.map_id']
  · intro hl0 e hget
    subst hl0
    rw [hpost] at hget
    unfold getTodo at hget
    split at hget
    · cases hget
    · rename_i u3 hu3
      have he := hget
      injection he with he'
      have hu3p := List.find?_some hu3
      simp only [Bool.and_eq_true, beq_iff_eq] at hu3p
      rw [← he']
      unfold enrich
      simp only [hu3p.1, List.map_nil, List.append_nil]
      rw [filter_not_pred_filter]
      rfl

/-- C6 witness: an update that simultaneously renames a concrete owned
task and clears its tag set leaves it with zero associations. -/
theorem updateTodo_tagIds_replace_witness :
    ((((updateTodo "u1"
        { id := "t1", title := some "b", description := none,
          completed := none, priority := none, dueDate := none,
          tagIds := some [] }
        5 ⟨[⟨"t1", "a", none, false, .medium, none, "u1", 0, 0⟩], [],
           [⟨"t1", "g1", 0⟩]⟩).1).todoTags.filter
        (fun tt => tt.todoId == "t1")).map (fun tt => tt.tagId))
      = ([] : List String) :=
  (updateTodo_tagIds_replace "u1"
    { id := "t1", title := some "b", description := none,
      completed := none, priority := none, dueDate := none,
      tagIds := some [] } [] rfl 5
    ⟨[⟨"t1", "a", none, false, .medium, none, "u1", 0, 0⟩], [],
     [⟨"t1", "g1", 0⟩]⟩
    ⟨"t1", "a", none, false, .medium, none, "u1", 0, 0⟩
    (List.mem_cons_self _ _) rfl rfl).1

/-- C5: toggling an owned task twice in succession returns its completed
flag to the value it had before the first toggle. -/
theorem toggleTodo_twice (caller id : String) (n1 n2 : Int) (db : DB)
    (t : Todo) (hpw : db.todos.Pairwise (fun a b => a.id ≠ b.id))
    (ht : t ∈ db.todos) (hid : t.id = id) (hu : t.userId = caller) :
    ∃ t2,
      ((toggleTodo caller id n2
          (toggleTodo caller id n1 db).1).1).todos.find?
          (fun x => x.id == id) = some t2
      ∧ t2.completed = t.completed := by
  have hfind1 : db.todos.find? (fun x => x.id == id && x.userId == caller)
      = some t := by
    apply find_eq_of_mem_unique db.todos _ t ht (by simp [hid, hu])
    intro x hx hpx
    simp only [Bool.and_eq_true, beq_iff_eq] at hpx
    exact eq_of_mem_pairwise_id db.todos hpw t x ht hx (by rw [hpx.1, hid])
  have hstep1 : (toggleTodo caller id n1 db).1
      = { db with todos := db.todos.map (fun x =>
          if x.id == id then
            { x with completed := !t.completed, updatedAt := n1 }
          else x) } := by
    unfold toggleTodo
    rw [hfind1]
  set f1 : Todo → Todo := fun x =>
    if x.id == id then { x with completed := !t.completed, updatedAt := n1 }
    else x with hf1
  have hf1id : ∀ x, (f1 x).id = x.id := by
    intro x
    rw [hf1]
    by_cases hx : (x.id == id) = true <;> simp [hx]
  have hf1u : ∀ x, (f1 x).userId = x.userId := by
    intro x
    rw [hf1]
    by_cases hx : (x.id == id) = true <;> simp [hx]
  have ht1mem : f1 t ∈ db.todos.map f1 := List.mem_map_of_mem f1 ht
  have hpw1 : (db.todos.map f1).Pairwise (fun a b => a.id ≠ b.id) := by
    rw [List.pairwise_map]
    exact hpw.imp (fun h => by rwa [hf1id, hf1id])
  have ht1eq : f1 t = { t with completed := !t.completed, updatedAt := n1 } := by
    rw [hf1]
    simp [hid]
  have hfind2 : (db.todos.map f1).find?
      (fun x => x.id == id && x.userId == caller) = some (f1 t) := by
    apply find_eq_of_mem_unique _ _ (f1 t) ht1mem
    · simp [hf1id t, hf1u t, hid, hu]
    · intro x hx hpx
      simp only [Bool.and_eq_true, beq_iff_eq] at hpx
      exact eq_of_mem_pairwise_id _ hpw1 (f1 t) x ht1mem hx
        (by rw [hpx.1, hf1id t, hid])
  have hstep2 : (toggleTodo caller id n2 (toggleTodo caller id n1 db).1).1
      = { db with todos := (db.todos.map f1).map (fun x =>
          if x.id == id then
            { x with completed := !(f1 t).completed, updatedAt := n2 }
          else x) } := by
    rw [hstep1]
    unfold toggleTodo
    simp only []
    rw [hfind2]
  set f2 : Todo → Todo := fun x =>
    if x.id == id then
      { x with completed := !(f1 t).completed, updatedAt := n2 }
    else x with hf2
  have hf2id : ∀ x, (f2 x).id = x.id := by
    intro x
    rw [hf2]
    by_cases hx : (x.id == id) = true <;> simp [hx]
  have ht2mem : f2 (f1 t) ∈ (db.todos.map f1).map f2 :=
    List.mem_map_of_mem f2 ht1mem
  have hpw2 : ((db.todos.map f1).map f2).Pairwise (fun a b => a.id ≠ b.id) := by
    rw [List.pairwise_map]
    exact hpw1.imp (fun h => by rwa [hf2id, hf2id])
  refine ⟨f2 (f1 t), ?_, ?_⟩
  · rw [hstep2]
    apply find_eq_of_mem_unique _ _ (f2 (f1 t)) ht2mem
    · simp [hf2id (f1 t), hf1id t, hid]
    · intro x hx hpx
      simp only [beq_iff_eq] at hpx
      exact eq_of_mem_pairwise_id _ hpw2 (f2 (f1 t)) x ht2mem hx
        (by rw [hpx, hf2id (f1 t), hf1id t, hid])
  · rw [hf2]
    simp only [hf1id t, hid, beq_self_eq_true, if_true]
    rw [ht1eq]
    simp [Bool.not_not]

/-- C5 witness: toggling a concrete owned task twice returns its
completed flag to false. -/
theorem toggleTodo_twice_witness :
    ∃ t2,
      ((toggleTodo "u1" "t1" 2
          (toggleTodo "u1" "t1" 1
            ⟨[⟨"t1", "a", none, false, .medium, none, "u1", 0, 0⟩],
             [], []⟩).1).1).todos.find? (fun x => x.id == "t1") = some t2
      ∧ t2.completed
          = (⟨"t1", "a", none, false, .medium, none, "u1", 0, 0⟩
              : Todo).completed :=
  toggleTodo_twice "u1" "t1" 1 2
    ⟨[⟨"t1", "a", none, false, .medium, none, "u1", 0, 0⟩], [], []⟩
    ⟨"t1", "a", none, false, .medium, none, "u1", 0, 0⟩
    (List.pairwise_singleton _ _) (List.mem_cons_self _ _) rfl rfl

/-- Round the integer ratio a / b (for b > 0) to the nearest integer with
ties to even — the IEEE-754 default rounding, applied on an integer
grid. -/
def rnEvenDiv (a b : Nat) : Nat :=
  let q := a / b
  let r := a % b
  if 2 * r < b then q
  else if b < 2 * r then q + 1
  else if q % 2 = 0 then q else q + 1

/-- Smallest scale k with bound ≤ a·2^k, found by doubling the
accumulator a2k = a·2^k; fuel-bounded structural recursion. -/
def floatScaleAux (bound : Nat) : Nat → Nat → Nat → Nat
  | 0, k, _ => k
  | fuel + 1, k, a2k =>
    if bound ≤ a2k then k else floatScaleAux bound fuel (k + 1) (2 * a2k)

/-- Round the nonnegative rational a / b to the nearest IEEE-754 binary64
value (round to nearest, ties to even), returned as a pair (m, k) whose
value is m / 2^k with the significand m normalised to 53 bits (zero is
(0, 0)).  Exact in the normal range, which covers every value the
completion-rate computation produces. -/
def roundFloatRat (a b : Nat) : Nat × Nat :=
  if a = 0 ∨ b = 0 then (0, 0)
  else
    let k := floatScaleAux (2 ^ 52 * b) 1200 0 a
    (rnEvenDiv (a * 2 ^ k) b, k)

/-- JavaScript Math.round on the exact dyadic value m / 2^k: the nearest
integer, ties toward positive infinity, i.e. the floor of m/2^k + 1/2. -/
def mathRoundDyadic (m k : Nat) : Nat :=
  (2 * m + 2 ^ k) / 2 ^ (k + 1)

/-- The completion rate exactly as the router computes it:
total > 0 ? Math.round((completed / total) * 100) : 0, with the division
and the multiplication performed in binary64 floating point. -/
def jsCompletionRate (completed total : Nat) : Nat :=
  if total = 0 then 0
  else
    let d := roundFloatRat completed total
    let p := roundFloatRat (100 * d.1) (2 ^ d.2)
    mathRoundDyadic p.1 p.2

/-- Round-half-up of the rational a / b with b > 0: the exact reading of
round(x) on nonnegative values. -/
def exactRoundNat (a b : Nat) : Nat :=
  (2 * a + b) / (2 * b)

/-- Per-priority counts returned by getStats. -/
structure ByPriority where
  low : Nat
  medium : Nat
  high : Nat
  urgent : Nat
deriving DecidableEq, Repr

/-- Result shape of getStats. -/
structure Stats where
  total : Nat
  completed : Nat
  pending : Nat
  overdue : Nat
  dueToday : Nat
  completionRate : Nat
  byPriority : ByPriority
deriving DecidableEq, Repr

/-- getStats: select the caller's rows once and compute the aggregates
from that snapshot.  The calendar-date test of toDateString is timezone
dependent, so it is supplied as the parameter sameDay. -/
def getStats (caller : String) (now : Int) (sameDay : Int → Int → Bool)
    (db : DB) : Stats :=
  let allTodos := db.todos.filter (fun t => t.userId == caller)
  let total := allTodos.length
  let completed := (allTodos.filter (fun t => t.completed)).length
  { total := total
    completed := completed
    pending := total - completed
    overdue := (allTodos.filter (fun t =>
      !t.completed && (match t.dueDate with
        | some d => decide (d < now)
        | none => false))).length
    dueToday := (allTodos.filter (fun t =>
      !t.completed && (match t.dueDate with
        | some d => sameDay d now
        | none => false))).length
    completionRate := jsCompletionRate completed total
    byPriority :=
      { low := (allTodos.filter (fun t => t.priority == .low)).length
        medium := (allTodos.filter (fun t => t.priority == .medium)).length
        high := (allTodos.filter (fun t => t.priority == .high)).length
        urgent :=
          (allTodos.filter (fun t => t.priority == .urgent)).length } }

/-- C9: getStats always satisfies total = completed + pending. -/
theorem getStats_total_split (caller : String) (now : Int)
    (sameDay : Int → Int → Bool) (db : DB) :
    (getStats caller now sameDay db).total
      = (getStats caller now sameDay db).completed
        + (getStats caller now sameDay db).pending := by
  unfold getStats
  dsimp only
  have hle : ((db.todos.filter (fun t => t.userId == caller)).filter
      (fun t => t.completed)).length
      ≤ (db.todos.filter (fun t => t.userId == caller)).length :=
    List.length_filter_le _ _
  omega

/-- A store of n identical tasks of one owner, the first m of them
completed; used to evaluate getStats at concrete sizes. -/
def mkStatsTodos (n m : Nat) : List Todo :=
  (List.range n).map (fun i =>
    ⟨"t", "a", none, decide (i < m), .medium, none, "u", 0, 0⟩)

/-- The floating-point completion rate agrees with the exact round-half-up
of completed/total × 100 for every total up to 39 (exhaustive check). -/
theorem jsCompletionRate_eq_exact_small :
    ∀ t, t ≤ 39 → ∀ c, c ≤ t → 0 < t →
      jsCompletionRate c t = exactRoundNat (100 * c) t := by
  decide

/-- C4 counterexample: for an owner with 40 tasks of which 23 are
completed, getStats returns completionRate 57, although the rounding of
completed/total × 100 = 57.5 is 58: the binary64 product (23/40)·100
evaluates just below 57.5, so Math.round rounds down. -/
theorem getStats_completionRate_counterexample :
    (getStats "u" 0 (fun _ _ => false)
        ⟨mkStatsTodos 40 23, [], []⟩).completionRate = 57
    ∧ exactRoundNat
        (100 * (getStats "u" 0 (fun _ _ => false)
          ⟨mkStatsTodos 40 23, [], []⟩).completed)
        (getStats "u" 0 (fun _ _ => false)
          ⟨mkStatsTodos 40 23, [], []⟩).total = 58 := by
  decide

/-- C4 amended: getStats returns completionRate equal to
Math.round((completed / total) × 100) computed in binary64 floating
point: 0 when total = 0 (never NaN and never an error), and equal to the
exact integer rounding of completed/total × 100 for every total up to 39,
while for larger totals the floating-point product can land just below an
exact .5 tie and round down (23 completed of 40 gives 57, not 58). -/
theorem getStats_completionRate (caller : String) (now : Int)
    (sameDay : Int → Int → Bool) (db : DB) :
    ((getStats caller now sameDay db).total = 0 →
      (getStats caller now sameDay db).completionRate = 0)
    ∧ (0 < (getStats caller now sameDay db).total →
      (getStats caller now sameDay db).total ≤ 39 →
      (getStats caller now sameDay db).completionRate
        = exactRoundNat
            (100 * (getStats caller now sameDay db).completed)
            (getStats caller now sameDay db).total) := by
  have hle : ((db.todos.filter (fun t => t.userId == caller)).filter
      (fun t => t.completed)).length
      ≤ (db.todos.filter (fun t => t.userId == caller)).length :=
    List.length_filter_le _ _
  unfold getStats
  dsimp only
  constructor
  · intro h0
    rw [h0]
    unfold jsCompletionRate
    simp
  · intro hpos hle39
    exact jsCompletionRate_eq_exact_small _ hle39 _ hle hpos

/-- C4 amended witness: the amended theorem applied at a concrete empty
store (rate 0) and at a store of two tasks with one completed (rate 50,
the exact rounding). -/
theorem getStats_completionRate_witness :
    (getStats "u" 0 (fun _ _ => false) ⟨[], [], []⟩).completionRate = 0
    ∧ (getStats "u" 0 (fun _ _ => false)
        ⟨[⟨"t1", "a", none, true, .medium, none, "u", 0, 0⟩,
          ⟨"t2", "b", none, false, .medium, none, "u", 0, 0⟩],
         [], []⟩).completionRate
      = exactRoundNat
          (100 * (getStats "u" 0 (fun _ _ => false)
            ⟨[⟨"t1", "a", none, true, .medium, none, "u", 0, 0⟩,
              ⟨"t2", "b", none, false, .medium, none, "u", 0, 0⟩],
             [], []⟩).completed)
          (getStats "u" 0 (fun _ _ => false)
            ⟨[⟨"t1", "a", none, true, .medium, none, "u", 0, 0⟩,
              ⟨"t2", "b", none, false, .medium, none, "u", 0, 0⟩],
             [], []⟩).total :=
  ⟨(getStats_completionRate "u" 0 (fun _ _ => false) ⟨[], [], []⟩).1
      (by decide),
   (getStats_completionRate "u" 0 (fun _ _ => false)
       ⟨[⟨"t1", "a", none, true, .medium, none, "u", 0, 0⟩,
         ⟨"t2", "b", none, false, .medium, none, "u", 0, 0⟩],
        [], []⟩).2 (by decide) (by decide)⟩

end SuperTodoo
